import Mathlib

/-!
Verification of the pycasso composition/layout core (`src/pycasso.py`,
`src/screentest.py`) against its specification.

Coordinates are modelled as rationals: every arithmetic operation the
source performs on them (integer subtraction, halving, addition) is exact
in IEEE doubles for the screen-sized magnitudes involved, so `ℚ` is a
faithful model of the Python floats here.
-/

/-- A four-element rectangle tuple `(left, top, right, bottom)` as used
throughout `pycasso.py` (`area_list` tuples, `draw_box`, crop boxes). -/
structure Rect where
  left : ℚ
  top : ℚ
  right : ℚ
  bottom : ℚ
deriving DecidableEq, Repr

/-- Model of `Pycasso.max_area` (pycasso.py:273-286): initialise `(a,b,c,d)` from the
head of the list, then fold componentwise `min`/`min`/`max`/`max` over every
element.  The Python code raises `IndexError` on an empty list, modelled as
`none`. -/
def max_area (area_list : List Rect) : Option Rect :=
  match area_list with
  | [] => none
  | r0 :: _ =>
    some (area_list.foldl
      (fun acc t =>
        ⟨min acc.left t.left, min acc.top t.top,
         max acc.right t.right, max acc.bottom t.bottom⟩) r0)

/-- Model of `Pycasso.set_tuple_bottom` (pycasso.py:288-292): rebuild the tuple with
the fourth element replaced. -/
def set_tuple_bottom (tup : Rect) (bottom : ℚ) : Rect :=
  ⟨tup.left, tup.top, tup.right, bottom⟩

/-- Model of `Pycasso.set_tuple_sides` (pycasso.py:294-298): rebuild the tuple with
the first and third elements replaced. -/
def set_tuple_sides (tup : Rect) (left right : ℚ) : Rect :=
  ⟨left, tup.top, right, tup.bottom⟩

/-- The padding adjustment from `Pycasso.run` (pycasso.py:603):
`numpy.add(draw_box, (-padding, -padding, padding, padding))`. -/
def padBox (r : Rect) (padding : ℚ) : Rect :=
  ⟨r.left + -padding, r.top + -padding, r.right + padding, r.bottom + padding⟩

/-- The center-crop rectangle computed in `Pycasso.run` (pycasso.py:564-570)
and verbatim in `screentest.py` (65-71): given canvas `(Wc, Hc)` and image
`(w, h)`, halve the differences and build
`(0 - width_diff, 0 - height_diff, w + width_diff, h + height_diff)`. -/
def cropSettings (Wc Hc w h : ℚ) : Rect :=
  let width_diff := (Wc - w) / 2
  let height_diff := (Hc - h) / 2
  let left_pixel := 0 - width_diff
  let top_pixel := 0 - height_diff
  let right_pixel := w + width_diff
  let bottom_pixel := h + height_diff
  ⟨left_pixel, top_pixel, right_pixel, bottom_pixel⟩

/-- The conditional box modification step of `Pycasso.run` (pycasso.py:605-610):
if `box_to_floor`, pin the bottom to `bottom_pixel`; if `box_to_edge`, pin
the sides to `width_diff` and `right_pixel`. -/
def applyBoxMods (draw_box : Rect) (box_to_floor box_to_edge : Bool)
    (width_diff bottom_pixel right_pixel : ℚ) : Rect :=
  let b1 := if box_to_floor then set_tuple_bottom draw_box bottom_pixel else draw_box
  if box_to_edge then set_tuple_sides b1 width_diff right_pixel else b1

/-- The caption-box step of `Pycasso.run` (pycasso.py:593-603): empty
captions keep the degenerate box `(0, epd.height, 0, epd.height)`, non-empty
captions get their text bounding box (supplied here as a parameter, since it
comes from the raster library's font metrics), then `max_area` of the two
boxes is padded.  The `none` branch of `max_area` is unreachable: the list
literal has two elements. -/
def captionLayout (H : ℚ) (artist_text title_text : String)
    (artistBB titleBB : Rect) (padding : ℚ) : Rect :=
  let emptyBox : Rect := ⟨0, H, 0, H⟩
  let artist_box := if artist_text ≠ "" then artistBB else emptyBox
  let title_box := if title_text ≠ "" then titleBB else emptyBox
  match max_area [artist_box, title_box] with
  | some r => padBox r padding
  | none => emptyBox

/-! ## Status icon renderer -/

/-- An RGBA colour tuple as passed to the PIL draw calls. -/
abbrev Color := ℕ × ℕ × ℕ × ℕ

/-- One drawing primitive invoked on the PIL `ImageDraw` surface, recorded
with the arguments the source passes. -/
inductive DrawOp where
  | rect (box : Rect) (w : ℕ) (fill : Color) (outline : Option Color)
  | line (box : Rect) (w : ℕ) (fill : Color)
  | ellipse (box : Rect) (w : ℕ) (fill : Color) (outline : Color)
  | poly (cx cy radius : ℚ) (n_sides : ℕ) (fill : Color) (outline : Color)
deriving DecidableEq, Repr

/-- Modelled from the spec: the `DisplayShape` enum lives in `constants.py`,
which is not under `src/`; the CLI help in `pycasso.py` (parse_args) fixes
the encoding `0 - Square, 1 - Cross, 2 - Triangle, 3 - Circle`. -/
def DisplayShapeCross : ℤ := 1

/-- Modelled from the spec: `DisplayShape.TRIANGLE.value` (see
`DisplayShapeCross`). -/
def DisplayShapeTriangle : ℤ := 2

/-- Modelled from the spec: `DisplayShape.CIRCLE.value` (see
`DisplayShapeCross`). -/
def DisplayShapeCircle : ℤ := 3

/-- Model of `Pycasso.add_status_icon` (pycasso.py:315-347).  The mutable PIL draw
surface is modelled as the list of drawing operations performed on it; the
function returns the surface, i.e. the extended list. -/
def add_status_icon (draw : List DrawOp) (display_shape : ℤ)
    (icon_padding icon_size : ℚ) (icon_width icon_opacity : ℕ) : List DrawOp :=
  let status_corner := icon_padding + icon_size
  let status_box : Rect := ⟨icon_padding, icon_padding, status_corner, status_corner⟩
  if display_shape = DisplayShapeCross then
    let status_box2 : Rect := ⟨status_corner, icon_padding, icon_padding, status_corner⟩
    draw ++ [.rect status_box 0 (0, 0, 0, icon_opacity) none,
             .line status_box icon_width (255, 255, 255, icon_opacity),
             .line status_box2 icon_width (255, 255, 255, icon_opacity)]
  else if display_shape = DisplayShapeTriangle then
    draw ++ [.poly (icon_padding + icon_size / 2) (icon_padding + icon_size / 2)
               (icon_size / 2) 3 (0, 0, 0, icon_opacity) (255, 255, 255, icon_opacity)]
  else if display_shape = DisplayShapeCircle then
    draw ++ [.ellipse status_box icon_width (0, 0, 0, icon_opacity)
               (255, 255, 255, icon_opacity)]
  else
    draw ++ [.rect status_box icon_width (0, 0, 0, icon_opacity)
               (some (255, 255, 255, icon_opacity))]

/-! ## Weighted selector

`Pycasso.run` (pycasso.py:420-427) uses
`random.choices(provider_types, k=1, weights=(...))[0]`.  CPython's
`random.choices` forms the cumulative weights, draws `x = random() * total`
with `x ∈ [0, total)`, and returns
`population[bisect.bisect(cum_weights, x, 0, n - 1)]`, i.e. the first index
whose cumulative weight strictly exceeds `x`, clamped to `n - 1`.  The
random draw is modelled by quantifying over the rational `x`. -/

/-- Cumulative sums of the weights, starting from accumulator `acc`
(CPython `itertools.accumulate`). -/
def cumWeights (acc : ℕ) : List ℕ → List ℕ
  | [] => []
  | w :: ws => (acc + w) :: cumWeights (acc + w) ws

/-- The index `bisect.bisect(cum_weights, x, 0, hi)` selects on a sorted
list: the first position whose entry exceeds `x`, clamped to `hi`. -/
def chooseIdx (weights : List ℕ) (x : ℚ) (hi : ℕ) : ℕ :=
  min ((cumWeights 0 weights).findIdx fun c : ℕ => decide (x < (c : ℚ))) hi

/-- Model of `random.choices(population, k=1, weights)[0]` for a random draw
`x ∈ [0, total)`; `none` only when the population is empty. -/
def weighted_choice {α : Type} (population : List α) (weights : List ℕ)
    (x : ℚ) : Option α :=
  population.get? (chooseIdx weights x (population.length - 1))

/-! ## Prompt template expander (`Pycasso.parse_subject`, pycasso.py:350-361) -/

/-- The tail of a match of the regex `\(.*?\)` starting right after an
opening parenthesis: the shortest run of non-newline characters up to a
closing parenthesis (`.` does not match a newline), returning the interior
and the remaining characters, or `none` when no such closing parenthesis
exists. -/
def scanContent : List Char → Option (List Char × List Char)
  | [] => none
  | c :: rest =>
    if c = ')' then some ([], rest)
    else if c = '\n' then none
    else
      match scanContent rest with
      | some (content, suf) => some (c :: content, suf)
      | none => none

/-- Leftmost match of `\(.*?\)`: split the string into the part before the
match, the match itself (parentheses included), and the part after it; the
regex engine retries from the next position when a start fails. -/
def findMatchSplit : List Char → Option (List Char × List Char × List Char)
  | [] => none
  | c :: rest =>
    if c = '(' then
      match scanContent rest with
      | some (content, suf) => some ([], c :: (content ++ [')']), suf)
      | none =>
        match findMatchSplit rest with
        | some (pre, m, suf) => some (c :: pre, m, suf)
        | none => none
    else
      match findMatchSplit rest with
      | some (pre, m, suf) => some (c :: pre, m, suf)
      | none => none

/-- Model of `re.findall(r"\(.*?\)", subject)`: non-overlapping leftmost matches.
Each match consumes at least two characters, so the input length is enough
fuel. -/
def findallAux : ℕ → List Char → List (List Char)
  | 0, _ => []
  | Nat.succ fuel, l =>
    match findMatchSplit l with
    | none => []
    | some (_, m, suf) => m :: findallAux fuel suf

/-- Model of `re.findall(r"\(.*?\)", subject)` on the character list. -/
def findall (l : List Char) : List (List Char) := findallAux l.length l

/-- Python `str.split('|')` on the character list. -/
def splitBar : List Char → List (List Char)
  | [] => [[]]
  | c :: rest =>
    if c = '|' then [] :: splitBar rest
    else
      match splitBar rest with
      | [] => [[c]]
      | g :: gs => (c :: g) :: gs

/-- Model of `re.sub(r"\(.*?\)", repl, subject, 1)`: replace the leftmost match.
The options substituted in `parse_subject` contain no backslashes, so the
replacement string is taken literally. -/
def subOnce (subject repl : List Char) : List Char :=
  match findMatchSplit subject with
  | some (pre, _, suf) => pre ++ repl ++ suf
  | none => subject

/-- The loop body of `Pycasso.parse_subject`: for each bracket found in the
original subject, strip all parentheses (`replace('(','').replace(')','')`),
split on the bar, pick one option at random (`random.choice`, modelled by
the next entry of `rnds` taken modulo the number of options — `split`
always returns a non-empty list), and substitute the leftmost match. -/
def parseSubjectAux : List ℕ → List (List Char) → List Char → List Char
  | _, [], subject => subject
  | rnds, bracket :: rest, subject =>
    let content := (bracket.filter fun c => c ≠ '(').filter fun c => c ≠ ')'
    let options := splitBar content
    let choice := options.getD (rnds.headD 0 % options.length) []
    parseSubjectAux rnds.tail rest (subOnce subject choice)

/-- Model of `Pycasso.parse_subject` (pycasso.py:350-361), with the stream of random
choices made explicit. -/
def parse_subject (rnds : List ℕ) (subject : List Char) : List Char :=
  parseSubjectAux rnds (findall subject) subject

/-! ## Raster images and cropping -/

/-- A raster image: dimensions plus a pixel lookup that is `some` colour
inside the image and `none` outside. -/
structure Img where
  width : ℕ
  height : ℕ
  pix : ℤ → ℤ → Option ℕ

/-- The pixel lookup agrees with the dimensions. -/
def Img.WF (img : Img) : Prop :=
  ∀ x y, (img.pix x y).isSome ↔
    (0 ≤ x ∧ x < (img.width : ℤ) ∧ 0 ≤ y ∧ y < (img.height : ℤ))

/-- Model of PIL `Image.crop((l, t, r, b))`: the result has the box's dimensions; pixels
are taken from the source offset by the box's top-left corner, with areas
outside the source filled with the library default (0). -/
def cropImg (img : Img) (l t r b : ℤ) : Img where
  width := (r - l).toNat
  height := (b - t).toNat
  pix := fun x y =>
    if 0 ≤ x ∧ x < r - l ∧ 0 ≤ y ∧ y < b - t then
      some ((img.pix (x + l) (y + t)).getD 0)
    else none

/-! ## Theorems -/

/-- Componentwise view of the `max_area` fold. -/
lemma maxArea_foldl (l : List Rect) (acc : Rect) :
    l.foldl
      (fun acc t =>
        ⟨min acc.left t.left, min acc.top t.top,
         max acc.right t.right, max acc.bottom t.bottom⟩) acc
      = ⟨(l.map Rect.left).foldl min acc.left,
         (l.map Rect.top).foldl min acc.top,
         (l.map Rect.right).foldl max acc.right,
         (l.map Rect.bottom).foldl max acc.bottom⟩ := by
  induction l generalizing acc with
  | nil => rfl
  | cons t l ih => simp [List.foldl_cons, ih]

/-- C4: for every non-empty list of rectangles, `max_area` returns the
rectangle whose left/top are the minimum of the inputs' left/top and whose
right/bottom are the maximum of the inputs' right/bottom; consequently
`max_area [R] = R`. -/
theorem C4_max_area_union (r : Rect) (rs : List Rect) :
    max_area (r :: rs)
      = some ⟨(rs.map Rect.left).foldl min r.left,
              (rs.map Rect.top).foldl min r.top,
              (rs.map Rect.right).foldl max r.right,
              (rs.map Rect.bottom).foldl max r.bottom⟩
    ∧ max_area [r] = some r := by
  constructor
  · simp only [max_area, List.foldl_cons, min_self, max_self, maxArea_foldl]
  · simp [max_area]

/-- C8: the padding adjustment returns
`(left - p, top - p, right + p, bottom + p)`; hence `pad R 0 = R` and the
padded rectangle's width and height each exceed `R`'s by exactly `2p`. -/
theorem C8_padding (r : Rect) (p : ℚ) :
    padBox r p = ⟨r.left - p, r.top - p, r.right + p, r.bottom + p⟩
    ∧ padBox r 0 = r
    ∧ (padBox r p).right - (padBox r p).left = (r.right - r.left) + 2 * p
    ∧ (padBox r p).bottom - (padBox r p).top = (r.bottom - r.top) + 2 * p := by
  obtain ⟨a, b, c, d⟩ := r
  refine ⟨?_, ?_, ?_, ?_⟩
  · simp only [padBox, Rect.mk.injEq]
    exact ⟨by ring, by ring, trivial, trivial⟩
  · simp only [padBox, Rect.mk.injEq]
    exact ⟨by ring, by ring, by ring, by ring⟩
  · simp only [padBox]; ring_nf
  · simp only [padBox]; ring_nf

/-- C9: `set_tuple_bottom` replaces only the bottom coordinate and
`set_tuple_sides` replaces only the left and right coordinates; both return
a new tuple, leaving the other fields exactly those of the input. -/
theorem C9_tuple_mutators (tup : Rect) (bottom left right : ℚ) :
    (set_tuple_bottom tup bottom).left = tup.left
    ∧ (set_tuple_bottom tup bottom).top = tup.top
    ∧ (set_tuple_bottom tup bottom).right = tup.right
    ∧ (set_tuple_bottom tup bottom).bottom = bottom
    ∧ (set_tuple_sides tup left right).left = left
    ∧ (set_tuple_sides tup left right).top = tup.top
    ∧ (set_tuple_sides tup left right).right = right
    ∧ (set_tuple_sides tup left right).bottom = tup.bottom :=
  ⟨rfl, rfl, rfl, rfl, rfl, rfl, rfl, rfl⟩

/-- C10: for every canvas `(Wc, Hc)` and image `(w, h)` — the differences
may be negative — the crop rectangle has width exactly `Wc` and height
exactly `Hc`, so the crop produces a canvas-sized output. -/
theorem C10_crop_canvas_sized (Wc Hc w h : ℚ) :
    (cropSettings Wc Hc w h).right - (cropSettings Wc Hc w h).left = Wc
    ∧ (cropSettings Wc Hc w h).bottom - (cropSettings Wc Hc w h).top = Hc := by
  constructor <;> simp [cropSettings] <;> ring_nf

/-- Evaluation of the caption-box step when the title is empty and the
artist caption is not: the artist box is unioned with the degenerate box
`(0, H, 0, H)` and padded. -/
lemma captionLayout_artistOnly (H : ℚ) (artist_text : String)
    (h : artist_text ≠ "") (artistBB titleBB : Rect) (p : ℚ) :
    captionLayout H artist_text "" artistBB titleBB p
      = padBox ⟨min artistBB.left 0, min artistBB.top H,
                max artistBB.right 0, max artistBB.bottom H⟩ p := by
  simp [captionLayout, max_area, h]

/-- C1 counterexample: canvas height 480, padding 10, empty title,
non-empty artist caption whose text box is `(350, 440, 450, 460)` (a
100×20 box bottom-centre-anchored 20 px above the canvas floor).  The
claim predicts the padded artist box `(340, 430, 460, 470)`; the code
unions in the degenerate `(0, 480, 0, 480)` box first and produces
`(-10, 430, 460, 490)`. -/
theorem C1_caption_union_counterexample :
    captionLayout 480 "Artist" "" ⟨350, 440, 450, 460⟩ ⟨0, 0, 0, 0⟩ 10
      ≠ padBox ⟨350, 440, 450, 460⟩ 10 := by
  rw [captionLayout_artistOnly 480 "Artist" (by decide) ⟨350, 440, 450, 460⟩
        ⟨0, 0, 0, 0⟩ 10]
  simp only [padBox, Rect.mk.injEq, not_and]
  intro h
  exfalso
  revert h
  norm_num

/-- C1 amended: with an empty title and a non-empty artist caption, the
background rectangle before pinning is the padded union of the artist text
box with the degenerate box `(0, H, 0, H)` — left `min(artist.left, 0)`,
top `min(artist.top, H)`, right `max(artist.right, 0)`, bottom
`max(artist.bottom, H)` — so the degenerate box does perturb the union
whenever the artist box has positive left or bottom above the canvas
floor. -/
theorem C1_caption_union_amended (H : ℚ) (artist_text : String)
    (h : artist_text ≠ "") (artistBB titleBB : Rect) (p : ℚ) :
    captionLayout H artist_text "" artistBB titleBB p
      = padBox ⟨min artistBB.left 0, min artistBB.top H,
                max artistBB.right 0, max artistBB.bottom H⟩ p :=
  captionLayout_artistOnly H artist_text h artistBB titleBB p

/-- Witness for `C1_caption_union_amended` at the counterexample's input. -/
theorem C1_caption_union_amended_witness :
    "Artist" ≠ "" ∧
    captionLayout 480 "Artist" "" ⟨350, 440, 450, 460⟩ ⟨0, 0, 0, 0⟩ 10
      = padBox ⟨min 350 0, min 440 480, max 450 0, max 460 480⟩ 10 :=
  ⟨by decide,
   C1_caption_union_amended 480 "Artist" (by decide) ⟨350, 440, 450, 460⟩
     ⟨0, 0, 0, 0⟩ 10⟩

/-- C2 counterexample: canvas width 800, image width 400, so
`width_diff = 200` and the crop rectangle's left is `-200`.  With
`box_to_edge` set the code pins the box's left to `width_diff = 200`, not
to the crop rectangle's left `-200` as the claim states. -/
theorem C2_box_to_edge_counterexample :
    applyBoxMods ⟨340, 430, 460, 470⟩ false true
        ((800 - 400) / 2) (300 + (480 - 300) / 2) (400 + (800 - 400) / 2)
      ≠ ⟨(cropSettings 800 480 400 300).left, 430,
         (cropSettings 800 480 400 300).right, 470⟩ := by
  simp only [applyBoxMods, set_tuple_sides, set_tuple_bottom, cropSettings,
    Bool.false_eq_true, if_false, if_true, Rect.mk.injEq, not_and]
  intro h
  exfalso
  revert h
  norm_num

/-- C2 amended: with `box_to_edge` set, the box's left and right are set to
`width_diff` (the negation of the crop rectangle's left — they agree only
when `width_diff = 0`) and `image.width + width_diff` (the crop
rectangle's right), leaving the top unchanged and the bottom as the
`box_to_floor` step left it. -/
theorem C2_box_to_edge_amended (db : Rect) (box_to_floor : Bool)
    (Wc w bp : ℚ) :
    applyBoxMods db box_to_floor true ((Wc - w) / 2) bp (w + (Wc - w) / 2)
      = ⟨(Wc - w) / 2, db.top, w + (Wc - w) / 2,
         if box_to_floor then bp else db.bottom⟩ := by
  cases box_to_floor <;>
    simp [applyBoxMods, set_tuple_bottom, set_tuple_sides]

/-- C3: for a source image no larger than the canvas, the center-crop step
computes `width_diff = (Wc - w)/2`, `height_diff = (Hc - h)/2` and the crop
rectangle `(-width_diff, -height_diff, w + width_diff, h + height_diff)`;
when the image is exactly canvas-sized both diffs are `0`, the crop
rectangle is `(0, 0, Wc, Hc)`, and cropping to it returns the image
unchanged. -/
theorem C3_center_crop (Wc Hc : ℚ) (img : Img) (hWF : img.WF)
    (hw : (img.width : ℚ) ≤ Wc) (hh : (img.height : ℚ) ≤ Hc) :
    cropSettings Wc Hc img.width img.height
      = ⟨-((Wc - img.width) / 2), -((Hc - img.height) / 2),
         img.width + (Wc - img.width) / 2,
         img.height + (Hc - img.height) / 2⟩
    ∧ ((img.width : ℚ) = Wc → (img.height : ℚ) = Hc →
        (Wc - img.width) / 2 = 0 ∧ (Hc - img.height) / 2 = 0
        ∧ cropSettings Wc Hc img.width img.height = ⟨0, 0, Wc, Hc⟩
        ∧ cropImg img 0 0 img.width img.height = img) := by
  constructor
  · simp [cropSettings, Rect.mk.injEq, zero_sub]
  · intro h1 h2
    have hd1 : (Wc - (img.width : ℚ)) / 2 = 0 := by rw [h1]; ring
    have hd2 : (Hc - (img.height : ℚ)) / 2 = 0 := by rw [h2]; ring
    refine ⟨hd1, hd2, ?_, ?_⟩
    · simp [cropSettings, Rect.mk.injEq, hd1, hd2, h1, h2]
    · obtain ⟨w, ht, pix⟩ := img
      have hWF' := hWF
      simp only [Img.WF] at hWF'
      simp only [cropImg, Img.mk.injEq]
      refine ⟨by omega, by omega, ?_⟩
      funext x y
      by_cases hb : 0 ≤ x ∧ x < (w : ℤ) ∧ 0 ≤ y ∧ y < (ht : ℤ)
      · have hs := (hWF' x y).mpr hb
        obtain ⟨v, hv⟩ := Option.isSome_iff_exists.mp hs
        simp only [sub_zero, add_zero]
        rw [if_pos (by omega : 0 ≤ x ∧ x < (w : ℤ) ∧ 0 ≤ y ∧ y < (ht : ℤ)), hv]
        rfl
      · have hs : pix x y = none := by
          rcases Option.eq_none_or_eq_some (pix x y) with hn | ⟨v, hv⟩
          · exact hn
          · exfalso
            exact hb ((hWF' x y).mp (by simp [hv]))
        simp only [sub_zero, add_zero]
        rw [if_neg (by omega : ¬(0 ≤ x ∧ x < (w : ℤ) ∧ 0 ≤ y ∧ y < (ht : ℤ))), hs]

/-- A concrete 1×1 well-formed image used as a witness input. -/
def img1 : Img :=
  ⟨1, 1, fun x y => if x = 0 ∧ y = 0 then some 7 else none⟩

lemma img1_WF : img1.WF := by
  intro x y
  simp only [img1]
  by_cases h : x = 0 ∧ y = 0
  · obtain ⟨hx, hy⟩ := h
    subst hx
    subst hy
    norm_num
  · rw [if_neg h]
    simp only [Option.isSome_none, Bool.false_eq_true, false_iff]
    omega

/-- Witness for `C3_center_crop` on a canvas-sized 1×1 image. -/
theorem C3_center_crop_witness :
    img1.WF ∧ (img1.width : ℚ) ≤ 1 ∧ (img1.height : ℚ) ≤ 1
    ∧ cropSettings 1 1 img1.width img1.height = ⟨0, 0, 1, 1⟩
    ∧ cropImg img1 0 0 img1.width img1.height = img1 := by
  have h := (C3_center_crop 1 1 img1 img1_WF (by norm_num [img1])
    (by norm_num [img1])).2 (by norm_num [img1]) (by norm_num [img1])
  exact ⟨img1_WF, by norm_num [img1], by norm_num [img1], h.2.2.1, h.2.2.2⟩

/-- C7: for every icon discriminant not in `{cross, triangle, circle}` the
renderer falls through to the default square: one filled rectangle with a
stroked outline at `(padding, padding, padding+size, padding+size)`, both
tones carrying the supplied opacity, and the drawing surface is
returned. -/
theorem C7_icon_default_square (draw : List DrawOp) (shape : ℤ)
    (h1 : shape ≠ DisplayShapeCross) (h2 : shape ≠ DisplayShapeTriangle)
    (h3 : shape ≠ DisplayShapeCircle)
    (icon_padding icon_size : ℚ) (icon_width icon_opacity : ℕ) :
    add_status_icon draw shape icon_padding icon_size icon_width icon_opacity
      = draw ++ [.rect ⟨icon_padding, icon_padding,
                        icon_padding + icon_size, icon_padding + icon_size⟩
                   icon_width (0, 0, 0, icon_opacity)
                   (some (255, 255, 255, icon_opacity))] := by
  simp [add_status_icon, h1, h2, h3]

/-- Witness for `C7_icon_default_square` at the unrecognised discriminant
`9` with the source's default geometry parameters. -/
theorem C7_icon_default_square_witness :
    (9 : ℤ) ≠ DisplayShapeCross ∧ (9 : ℤ) ≠ DisplayShapeTriangle
    ∧ (9 : ℤ) ≠ DisplayShapeCircle
    ∧ add_status_icon [] 9 5 10 3 150
      = [.rect ⟨5, 5, 5 + 10, 5 + 10⟩ 3 (0, 0, 0, 150)
           (some (255, 255, 255, 150))] :=
  ⟨by decide, by decide, by decide,
   C7_icon_default_square [] 9 (by decide) (by decide) (by decide) 5 10 3 150⟩

/-- Bisection over the cumulative weights always lands on an index whose
own weight is positive: with the accumulator below the draw and the draw
below the final total, the first cumulative entry exceeding the draw marks
a weight that actually contributed. -/
lemma findIdx_cumWeights_pos (ws : List ℕ) (acc : ℕ) (x : ℚ)
    (hlo : (acc : ℚ) ≤ x) (hhi : x < (acc : ℚ) + (ws.sum : ℚ)) :
    ∃ w, ws.get?
        ((cumWeights acc ws).findIdx fun c : ℕ => decide (x < (c : ℚ)))
        = some w ∧ 0 < w := by
  induction ws generalizing acc with
  | nil =>
    exfalso
    simp only [List.sum_nil, Nat.cast_zero, add_zero] at hhi
    linarith
  | cons w ws ih =>
    by_cases hx : x < (acc : ℚ) + (w : ℚ)
    · refine ⟨w, ?_, ?_⟩
      · simp [cumWeights, List.findIdx_cons, Nat.cast_add, hx]
      · rcases Nat.eq_zero_or_pos w with hw | hw
        · exfalso
          subst hw
          simp only [Nat.cast_zero, add_zero] at hx
          linarith
        · exact hw
    · have hrec := ih (acc + w)
        (by push_cast; linarith [not_lt.mp hx])
        (by
          simp only [List.sum_cons] at hhi
          push_cast at hhi ⊢
          linarith)
      simpa [cumWeights, List.findIdx_cons, Nat.cast_add, hx] using hrec

/-- C5: for any labels with parallel non-negative weights and any random
draw `x ∈ [0, total)`, the weighted selector lands on an index whose
weight is positive — a zero-weight label is never chosen; in particular
`weighted_choice ["a","b"] [1,0]` always returns `"a"` and
`weighted_choice ["a","b","c"] [0,0,5]` always returns `"c"`. -/
theorem C5_weighted_choice (labels : List String) (weights : List ℕ)
    (x : ℚ) (hlen : weights.length = labels.length)
    (h0 : 0 ≤ x) (hx : x < (weights.sum : ℚ)) :
    (∃ i w, chooseIdx weights x (labels.length - 1) = i
        ∧ weights.get? i = some w ∧ 0 < w
        ∧ weighted_choice labels weights x = labels.get? i)
    ∧ (∀ y : ℚ, 0 ≤ y → y < 1 →
        weighted_choice ["a", "b"] [1, 0] y = some "a")
    ∧ (∀ y : ℚ, 0 ≤ y → y < 5 →
        weighted_choice ["a", "b", "c"] [0, 0, 5] y = some "c") := by
  refine ⟨?_, ?_, ?_⟩
  · obtain ⟨w, hget, hw⟩ := findIdx_cumWeights_pos weights 0 x
      (by exact_mod_cast h0) (by simpa using hx)
    have hj : ((cumWeights 0 weights).findIdx
          fun c : ℕ => decide (x < (c : ℚ)))
        < weights.length := by
      by_contra hge
      rw [List.get?_eq_none.mpr (le_of_not_lt hge)] at hget
      exact Option.noConfusion hget
    have hmin : chooseIdx weights x (labels.length - 1)
        = (cumWeights 0 weights).findIdx
            fun c : ℕ => decide (x < (c : ℚ)) := by
      unfold chooseIdx
      exact min_eq_left (by omega)
    exact ⟨_, w, hmin, hget, hw, by rw [weighted_choice, hmin]⟩
  · intro y hy0 hy1
    have hcum : cumWeights 0 [1, 0] = [1, 1] := by norm_num [cumWeights]
    simp [weighted_choice, chooseIdx, hcum, List.findIdx_cons, hy1]
  · intro y hy0 hy5
    have hcum : cumWeights 0 [0, 0, 5] = [0, 0, 5] := by
      norm_num [cumWeights]
    simp [weighted_choice, chooseIdx, hcum, List.findIdx_cons,
      not_lt.mpr hy0, hy5]

/-- Witness for `C5_weighted_choice` at the draw `x = 1/2` on labels
`["a","b"]` with weights `[1,0]`. -/
theorem C5_weighted_choice_witness :
    ([1, 0] : List ℕ).length = (["a", "b"] : List String).length
    ∧ (0 : ℚ) ≤ 1 / 2 ∧ (1 / 2 : ℚ) < (([1, 0] : List ℕ).sum : ℚ)
    ∧ weighted_choice ["a", "b"] [1, 0] (1 / 2) = some "a" := by
  refine ⟨rfl, by norm_num, by norm_num, ?_⟩
  exact (C5_weighted_choice ["a", "b"] [1, 0] (1 / 2) rfl (by norm_num)
      (by norm_num)).2.1 (1 / 2) (by norm_num) (by norm_num)

/-- C6: for every random outcome the template expander is deterministic on
`"a(b|b)c"` — the single group's alternatives are equal, so the result is
always `"abc"` — and a string containing no parenthesized group (no match
of the group regex) is returned unchanged. -/
theorem C6_template_deterministic :
    (∀ rnds : List ℕ, parse_subject rnds ("a(b|b)c".data) = "abc".data)
    ∧ (∀ (s : List Char) (rnds : List ℕ),
        findMatchSplit s = none → parse_subject rnds s = s) := by
  constructor
  · intro rnds
    have hf : findall ("a(b|b)c".data) = [['(', 'b', '|', 'b', ')']] := by
      decide
    have hopts : splitBar ((['(', 'b', '|', 'b', ')'].filter
        fun c => c ≠ '(').filter fun c => c ≠ ')') = [['b'], ['b']] := by
      decide
    rw [parse_subject, hf]
    simp only [parseSubjectAux, hopts, List.headD_eq_head?]
    rcases Nat.mod_two_eq_zero_or_one (rnds.head?.getD 0) with h | h <;>
      simp [h, subOnce, parseSubjectAux] <;> decide
  · intro s rnds h
    have hf : findall s = [] := by
      cases s with
      | nil => rfl
      | cons c cs => simp [findall, findallAux, h]
    rw [parse_subject, hf]
    simp [parseSubjectAux]

/-- Witness for `C6_template_deterministic` on the groupless string
`"xyz"`. -/
theorem C6_template_deterministic_witness :
    findMatchSplit ("xyz".data) = none
    ∧ parse_subject [] ("xyz".data) = "xyz".data :=
  ⟨by decide, C6_template_deterministic.2 ("xyz".data) [] (by decide)⟩
